import Mathlib

/-! The pyrpl register servers.

A shallow embedding of the two TCP register servers of pyrpl,
`monitor_server/monitor_server.c` and `pyrpl_server/pyrpl_server.c`: the header
decoding, the service loop, the token handshake, and `read_values` /
`write_values` over `/dev/mem`.

Target platform of the embedding: the Red Pitaya board the sources are
written for (32-bit ARM Linux, little endian). There `unsigned long` and
`unsigned int` are 32 bits wide (the protocol comment speaks of "4-byte-units"
and of "Bytes 5-8" for the address) and plain `char` is unsigned.

Environment assumptions, stated once:
* `/dev/mem` is a byte-addressed store `Mem`; `open` and `mmap` succeed;
* `recv(.., len, MSG_WAITALL)` delivers the next `len` bytes of the client
  stream, or all that is left when the client stream ends earlier;
* `send` on the blocking socket transmits the whole buffer;
* `mmap(0, MAP_SIZE, .., fd, off)` makes the `MAP_SIZE` bytes of physical
  memory from `off` on accessible at `map_base`. What lies after these
  `MAP_SIZE` bytes belongs to the address space of the process, not to
  `/dev/mem`: a load there returns whatever readable byte the process has at
  that place (`Outside`, different from process to process and from call to
  call) and traps where there is none; a store there traps (`segv`, the
  process is killed), the pages that follow a fresh mapping being absent or
  read-only.
-/

namespace Pyrpl

/-! ## Data model -/

/-- One octet, as stored in a `char`. -/
abbrev Byte := Fin 256

/-- Physical memory as seen through `/dev/mem`: byte address to octet. -/
abbrev Mem := Nat → Byte

/-- Size in bytes of one mapping: `#define MAP_SIZE 131072UL`. -/
def MAP_SIZE : Nat := 131072

/-- Mask of the offset inside a mapping: `#define MAP_MASK (MAP_SIZE - 1)`. -/
def MAP_MASK : Nat := MAP_SIZE - 1

/-- Largest word count of a request: `#define MAX_LENGTH 65535`. -/
def MAX_LENGTH : Nat := 65535

/-- The value of `~MAP_MASK` in 32-bit `unsigned long` arithmetic. -/
def NOT_MAP_MASK : Nat := 2 ^ 32 - 1 - MAP_MASK

/-- The value of `sizeof(unsigned long)` on the target. -/
def SIZEOF_ULONG : Nat := 4

/-- Low octet of a number. -/
def byte_of (n : Nat) : Byte := ⟨n % 256, Nat.mod_lt n (by decide)⟩

/-- The four octets of a 32-bit `unsigned long`, in memory order (little endian). -/
def ulong_bytes (v : Nat) : List Byte :=
  [byte_of v, byte_of (v / 256), byte_of (v / 65536), byte_of (v / 16777216)]

/-- The `unsigned long` whose four octets in memory order are `b0 b1 b2 b3`. -/
def ulong_of_bytes (b0 b1 b2 b3 : Byte) : Nat :=
  b0.val + 256 * b1.val + 65536 * b2.val + 16777216 * b3.val

/-- Load of an `unsigned long` at physical byte address `p`. -/
def load_ulong (mem : Mem) (p : Nat) : Nat :=
  ulong_of_bytes (mem p) (mem (p + 1)) (mem (p + 2)) (mem (p + 3))

/-- Store of the `unsigned long` `v` at physical byte address `p`. -/
def store_ulong (mem : Mem) (p : Nat) (v : Nat) : Mem :=
  fun q =>
    if q = p then byte_of v
    else if q = p + 1 then byte_of (v / 256)
    else if q = p + 2 then byte_of (v / 65536)
    else if q = p + 3 then byte_of (v / 16777216)
    else mem q

/-- Result of a routine that stores through the mapping: it either runs to its end, or an
access falls outside the mapped `MAP_SIZE` bytes; both carry the memory as it is at that
moment. -/
inductive WriteResult where
  | ok (mem : Mem) : WriteResult
  | segv (mem : Mem) : WriteResult

/-! ## `read_values` and `write_values`

The text of both functions is the same in the two files
(monitor_server.c 246-287, pyrpl_server.c 309-350). Each call maps `MAP_SIZE`
bytes of `/dev/mem` at file offset `a_addr & ~MAP_MASK`, sets
`virt_addr = map_base + (a_addr & MAP_MASK)` and accesses
`((unsigned long*) virt_addr)[i]` for `i < a_len`. -/

/-- Byte offset, from `map_base`, of the access `((unsigned long*) virt_addr)[i]`. -/
def access_offset (a_addr i : Nat) : Nat := (a_addr &&& MAP_MASK) + SIZEOF_ULONG * i

/-- Physical byte address behind `((unsigned long*) virt_addr)[i]` when the access
is inside the mapping: mmap offset plus offset from `map_base`. -/
def access_phys (a_addr i : Nat) : Nat := (a_addr &&& NOT_MAP_MASK) + access_offset a_addr i

/-- An `unsigned long` access at byte offset `off` from `map_base` stays inside the mapping. -/
def in_window (off : Nat) : Prop := off + SIZEOF_ULONG ≤ MAP_SIZE

instance (off : Nat) : Decidable (in_window off) :=
  inferInstanceAs (Decidable (off + SIZEOF_ULONG ≤ MAP_SIZE))

/-- What a load finds in the address space of the process right after a mapping: `outside n`
is the byte at `map_base + MAP_SIZE + n`, or `none` where no readable page lies. It is not part
of `/dev/mem`. -/
abbrev Outside := Nat → Option Byte

/-- The byte a load finds at byte offset `off` from `map_base`: inside the mapping the byte of
physical memory behind it, past the mapping whatever the process has there. -/
def mapped_byte (mem : Mem) (outside : Outside) (a_addr off : Nat) : Option Byte :=
  if off < MAP_SIZE then some (mem ((a_addr &&& NOT_MAP_MASK) + off))
  else outside (off - MAP_SIZE)

/-- The load `((unsigned long*) virt_addr)[i]`: the word made of the four bytes from offset
`access_offset a_addr i` on; `none` when one of them is not readable (the load traps). The
source puts no bound on `i`. -/
def load_mapped (mem : Mem) (outside : Outside) (a_addr i : Nat) : Option Nat :=
  match mapped_byte mem outside a_addr (access_offset a_addr i),
        mapped_byte mem outside a_addr (access_offset a_addr i + 1),
        mapped_byte mem outside a_addr (access_offset a_addr i + 2),
        mapped_byte mem outside a_addr (access_offset a_addr i + 3) with
  | some b0, some b1, some b2, some b3 => some (ulong_of_bytes b0 b1 b2 b3)
  | _, _, _, _ => none

/-- The loop `for (i = ..; i < a_len; i++) a_values_buffer[i] = ((unsigned long*) virt_addr)[i];`
from index `i` on, with `n` iterations left; `none` when a load traps. -/
def read_loop (mem : Mem) (outside : Outside) (a_addr : Nat) : Nat → Nat → Option (List Nat)
  | _, 0 => some []
  | i, n + 1 =>
    match load_mapped mem outside a_addr i with
    | some v =>
      match read_loop mem outside a_addr (i + 1) n with
      | some vs => some (v :: vs)
      | none => none
    | none => none

/-- Model of `read_values(a_addr, a_values_buffer, a_len)`: the first `a_len` entries of the buffer
after the call, `none` when a load trapped. -/
def read_values (mem : Mem) (outside : Outside) (a_addr a_len : Nat) : Option (List Nat) :=
  read_loop mem outside a_addr 0 a_len

/-- The loop `for (i = ..; i < a_len; i++) ((unsigned long *) virt_addr)[i] = a_values[i];`
from index `i` on; the list holds `a_values[i], a_values[i+1], ..`. A store outside the mapping
traps. -/
def write_loop (a_addr : Nat) : Nat → List Nat → Mem → WriteResult
  | _, [], mem => .ok mem
  | i, v :: vs, mem =>
    if in_window (access_offset a_addr i) then
      write_loop a_addr (i + 1) vs (store_ulong mem (access_phys a_addr i) v)
    else .segv mem

/-- Model of `write_values(a_addr, a_values, a_len)`; `a_values` is the list of the
`a_len` words in the buffer. -/
def write_values (mem : Mem) (a_addr : Nat) (a_values : List Nat) : WriteResult :=
  write_loop a_addr 0 a_values mem

/-! ## Sessions -/

/-- Ghost record of a call of `read_values` or `write_values` made by a server. -/
inductive Call where
  | read (a_addr a_len : Nat) : Call
  | write (a_addr : Nat) (a_values : List Nat) : Call
  deriving DecidableEq

/-- State of one client connection. -/
structure Session where
  /-- Bytes the client still sends, in order; after them the stream ends. -/
  input : List Byte
  /-- Bytes sent to the client so far. -/
  output : List Byte
  /-- Physical memory. -/
  mem : Mem
  /-- Calls of `read_values` / `write_values` made so far (ghost). -/
  calls : List Call
  /-- What lies after the mapping made by the call number `n` of `read_values` /
  `write_values` in this process. -/
  outside : Nat → Outside

/-- The calls of `error(..)` the embedding can reach, by message. -/
inductive ErrorMsg where
  /-- Message "ERROR reading from socket - incorrect header length". -/
  | headerLength
  /-- Message "ERROR read incorrect number of bytes to socket". -/
  | payloadLength
  /-- Message "ERROR unknown control character - server and client out of sync". -/
  | unknownControl
  /-- Message "ERROR reading from socket - incorrect token length". -/
  | tokenLength
  /-- Message "Authentification failure - wrong token. Terminating client!". -/
  | authFailure
  deriving DecidableEq

/-- Where a session stands after a step. -/
inductive Status where
  /-- Back at the top of the service loop. -/
  | awaitingHeader
  /-- Left the service loop by `break`: sockets closed, `return 0`. -/
  | closed
  /-- Ended by `error(msg)`: sockets closed, `exit(-1)`. -/
  | error (msg : ErrorMsg)
  /-- Killed by an access that trapped. -/
  | segv
  deriving DecidableEq

/-- Result of a step: status and session state. -/
structure Result where
  status : Status
  session : Session

/-- Model of `recv(newsockfd, buf, len, MSG_WAITALL)`: the bytes received and the rest of the
stream. -/
def recv (input : List Byte) (len : Nat) : List Byte × List Byte :=
  (input.take len, input.drop len)

/-! ## Header decoding -/

/-- Value of a `char` holding octet `b` after promotion to `int`; `charSigned` says
whether plain `char` is signed. -/
def char_to_int (charSigned : Bool) (b : Byte) : Int :=
  if charSigned && decide (128 ≤ b.val) then (b.val : Int) - 256 else (b.val : Int)

/-- Plain `char` is unsigned on the ARM target. -/
def CHAR_SIGNED : Bool := false

/-- The assignment `data_length = buffer[2]+(buffer[3]<<8);`: the `int` sum converted to
`unsigned int`. -/
def raw_data_length (charSigned : Bool) (b2 b3 : Byte) : Nat :=
  ((char_to_int charSigned b2 + char_to_int charSigned b3 * 256) % 4294967296).toNat

/-- The clamp `if (data_length > MAX_LENGTH) data_length = MAX_LENGTH;`. -/
def clamp_length (data_length : Nat) : Nat :=
  if data_length > MAX_LENGTH then MAX_LENGTH else data_length

/-- The value of `data_length` the service loop dispatches on. -/
def header_data_length (b2 b3 : Byte) : Nat :=
  clamp_length (raw_data_length CHAR_SIGNED b2 b3)

/-- The assignment `address = ((unsigned long*)buffer)[1];`. -/
def header_address (b4 b5 b6 b7 : Byte) : Nat := ulong_of_bytes b4 b5 b6 b7

/-- The words of a received payload: `rw_buffer` read as `unsigned long[]`. -/
def words_of_bytes : List Byte → List Nat
  | b0 :: b1 :: b2 :: b3 :: rest => ulong_of_bytes b0 b1 b2 b3 :: words_of_bytes rest
  | _ => []

/-- The bytes of `rw_buffer` holding the given words. -/
def bytes_of_words : List Nat → List Byte
  | [] => []
  | v :: vs => ulong_bytes v ++ bytes_of_words vs

/-- An 8-byte request header. -/
structure Header where
  b0 : Byte
  b1 : Byte
  b2 : Byte
  b3 : Byte
  b4 : Byte
  b5 : Byte
  b6 : Byte
  b7 : Byte

/-- The header as it travels on the wire. -/
def Header.bytes (h : Header) : List Byte := [h.b0, h.b1, h.b2, h.b3, h.b4, h.b5, h.b6, h.b7]

/-- Decoded word count of a header. -/
def Header.count (h : Header) : Nat := header_data_length h.b2 h.b3

/-- Decoded address of a header. -/
def Header.address (h : Header) : Nat := header_address h.b4 h.b5 h.b6 h.b7

/-- Character constant 'r'. -/
def CH_r : Byte := 114
/-- Character constant 'w'. -/
def CH_w : Byte := 119
/-- Character constant 'c'. -/
def CH_c : Byte := 99
/-- Character constant '1'. -/
def CH_1 : Byte := 49

/-! ## monitor_server.c -/

namespace MonitorServer

/-- One iteration of the service loop `while (0==0) { .. }`, monitor_server.c 199-235. -/
def service_step (s : Session) : Result :=
  match recv s.input 8 with
  | ([b0, b1, b2, b3, b4, b5, b6, b7], rest) =>
    let buffer : List Byte := [b0, b1, b2, b3, b4, b5, b6, b7]
    let address := header_address b4 b5 b6 b7
    let data_length := header_data_length b2 b3
    if data_length = 0 then
      ⟨.awaitingHeader, { s with input := rest }⟩
    else if b0 = CH_r then
      match read_values s.mem (s.outside s.calls.length) address data_length with
      | some rw_buffer =>
        ⟨.awaitingHeader,
          { s with input := rest, output := s.output ++ (buffer ++ bytes_of_words rw_buffer),
                   calls := s.calls ++ [.read address data_length] }⟩
      | none =>
        ⟨.segv, { s with input := rest, calls := s.calls ++ [.read address data_length] }⟩
    else if b0 = CH_w then
      match recv rest (data_length * SIZEOF_ULONG) with
      | (payload, rest2) =>
        if payload.length ≠ data_length * SIZEOF_ULONG then
          ⟨.error .payloadLength, { s with input := rest2 }⟩
        else
          let rw_buffer := words_of_bytes payload
          match write_values s.mem address rw_buffer with
          | .ok m =>
            ⟨.awaitingHeader,
              { s with input := rest2, output := s.output ++ buffer, mem := m,
                       calls := s.calls ++ [.write address rw_buffer] }⟩
          | .segv m =>
            ⟨.segv, { s with input := rest2, mem := m,
                             calls := s.calls ++ [.write address rw_buffer] }⟩
    else if b0 = CH_c then
      ⟨.closed, { s with input := rest }⟩
    else
      ⟨.error .unknownControl, { s with input := rest }⟩
  | (_, rest) => ⟨.error .headerLength, { s with input := rest }⟩

/-- The service loop, run for at most `fuel` iterations. -/
def service_loop : Nat → Session → Result
  | 0, s => ⟨.awaitingHeader, s⟩
  | fuel + 1, s =>
    match service_step s with
    | ⟨.awaitingHeader, s1⟩ => service_loop fuel s1
    | r => r

end MonitorServer

/-! ## pyrpl_server.c -/

namespace PyrplServer

/-- Model of `strcmp(s1, s2)` on two buffers that hold C strings: the difference of the first pair of
differing octets, `0` when both strings end together; `none` when a buffer is exhausted before
a terminator is met. -/
def strcmp : List Byte → List Byte → Option Int
  | a :: s1, b :: s2 =>
    if a ≠ b then some ((a.val : Int) - (b.val : Int))
    else if a = 0 then some 0
    else strcmp s1 s2
  | _, _ => none

/-- The check of `main` on `argv[2]`, pyrpl_server.c 192-196: `token` lists the characters of the
C string before its terminator, and `strlen(token) == 32`. -/
def token_ok (token : List Byte) : Prop := token.length = 32 ∧ ∀ b ∈ token, b ≠ 0

instance (token : List Byte) : Decidable (token_ok token) :=
  inferInstanceAs (Decidable (token.length = 32 ∧ ∀ b ∈ token, b ≠ 0))

/-- The constant `"11111111111111111111111111111111"`. -/
def ACK_TOKEN : List Byte := List.replicate 32 CH_1

/-- The authentification procedure, pyrpl_server.c 241-257. `buffer` is zeroed over 33 bytes
before the 32 bytes are received, so `buffer[32]` is the terminator. -/
def handshake (token : List Byte) (s : Session) : Result :=
  match recv s.input 32 with
  | (received, rest) =>
    if received.length ≠ 32 then
      ⟨.error .tokenLength, { s with input := rest }⟩
    else
      match strcmp (received ++ [0]) (token ++ [0]) with
      | some d =>
        if d ≠ 0 then
          ⟨.error .authFailure, { s with input := rest, output := s.output ++ token.take 32 }⟩
        else
          ⟨.awaitingHeader, { s with input := rest, output := s.output ++ ACK_TOKEN }⟩
      | none => ⟨.segv, { s with input := rest }⟩

/-- One iteration of the inner service loop `for(;;) { .. }`, pyrpl_server.c 259-296. -/
def service_step (s : Session) : Result :=
  match recv s.input 8 with
  | ([b0, b1, b2, b3, b4, b5, b6, b7], rest) =>
    let buffer : List Byte := [b0, b1, b2, b3, b4, b5, b6, b7]
    let address := header_address b4 b5 b6 b7
    let data_length := header_data_length b2 b3
    if data_length = 0 then
      ⟨.awaitingHeader, { s with input := rest }⟩
    else if b0 = CH_r then
      match read_values s.mem (s.outside s.calls.length) address data_length with
      | some rw_buffer =>
        ⟨.awaitingHeader,
          { s with input := rest, output := s.output ++ (buffer ++ bytes_of_words rw_buffer),
                   calls := s.calls ++ [.read address data_length] }⟩
      | none =>
        ⟨.segv, { s with input := rest, calls := s.calls ++ [.read address data_length] }⟩
    else if b0 = CH_w then
      match recv rest (data_length * SIZEOF_ULONG) with
      | (payload, rest2) =>
        if payload.length ≠ data_length * SIZEOF_ULONG then
          ⟨.error .payloadLength, { s with input := rest2 }⟩
        else
          let rw_buffer := words_of_bytes payload
          match write_values s.mem address rw_buffer with
          | .ok m =>
            ⟨.awaitingHeader,
              { s with input := rest2, output := s.output ++ buffer, mem := m,
                       calls := s.calls ++ [.write address rw_buffer] }⟩
          | .segv m =>
            ⟨.segv, { s with input := rest2, mem := m,
                             calls := s.calls ++ [.write address rw_buffer] }⟩
    else if b0 = CH_c then
      ⟨.closed, { s with input := rest }⟩
    else
      ⟨.error .unknownControl, { s with input := rest }⟩
  | (_, rest) => ⟨.error .headerLength, { s with input := rest }⟩

/-- The service loop, run for at most `fuel` iterations. -/
def service_loop : Nat → Session → Result
  | 0, s => ⟨.awaitingHeader, s⟩
  | fuel + 1, s =>
    match service_step s with
    | ⟨.awaitingHeader, s1⟩ => service_loop fuel s1
    | r => r

/-- A forked child: handshake, then the service loop for at most `fuel` iterations. -/
def serve (token : List Byte) (fuel : Nat) (s : Session) : Result :=
  match handshake token s with
  | ⟨.awaitingHeader, s1⟩ => service_loop fuel s1
  | r => r

end PyrplServer

/-- The step sent nothing and touched no register: output, memory and the record of
`read_values` / `write_values` calls are as before. -/
def Result.quiet (r : Result) (s : Session) : Prop :=
  r.session.output = s.output ∧ r.session.mem = s.mem ∧ r.session.calls = s.calls

/-- A process in which the readable bytes `bs` follow every mapping, and no readable page after
them. -/
def outside_bytes (bs : List Byte) : Nat → Outside := fun _ n => bs[n]?

/-- Physical memory that holds the word 1 at byte address `MAP_SIZE` and zeros elsewhere. -/
def mem_one_at_MAP_SIZE : Mem := fun p => if p = MAP_SIZE then 1 else 0

/-! ## Basic facts -/

theorem MAP_SIZE_eq : MAP_SIZE = 131072 := rfl

theorem MAP_MASK_eq : MAP_MASK = 131071 := rfl

theorem MAX_LENGTH_eq : MAX_LENGTH = 65535 := rfl

theorem raw_data_length_unsigned (b2 b3 : Byte) :
    raw_data_length false b2 b3 = b2.val + 256 * b3.val := by
  simp only [raw_data_length, char_to_int, Bool.false_and, Bool.false_eq_true, if_false]
  omega

theorem header_data_length_eq (b2 b3 : Byte) :
    header_data_length b2 b3 = b2.val + 256 * b3.val := by
  have h := raw_data_length_unsigned b2 b3
  simp only [header_data_length, CHAR_SIGNED, clamp_length, h, MAX_LENGTH]
  split <;> omega

/-- Evaluation of one service-loop iteration of both servers on an input that starts with a
full header. -/
theorem service_step_header (h : Header) (rest : List Byte) (s : Session)
    (hin : s.input = h.bytes ++ rest) :
    PyrplServer.service_step s = MonitorServer.service_step s ∧
    MonitorServer.service_step s =
      if h.count = 0 then ⟨.awaitingHeader, { s with input := rest }⟩
      else if h.b0 = CH_r then
        match read_values s.mem (s.outside s.calls.length) h.address h.count with
        | some rw_buffer =>
          ⟨.awaitingHeader,
            { s with input := rest, output := s.output ++ (h.bytes ++ bytes_of_words rw_buffer),
                     calls := s.calls ++ [.read h.address h.count] }⟩
        | none =>
          ⟨.segv, { s with input := rest, calls := s.calls ++ [.read h.address h.count] }⟩
      else if h.b0 = CH_w then
        if (rest.take (h.count * SIZEOF_ULONG)).length ≠ h.count * SIZEOF_ULONG then
          ⟨.error .payloadLength, { s with input := rest.drop (h.count * SIZEOF_ULONG) }⟩
        else
          match write_values s.mem h.address
              (words_of_bytes (rest.take (h.count * SIZEOF_ULONG))) with
          | .ok m =>
            ⟨.awaitingHeader,
              { s with input := rest.drop (h.count * SIZEOF_ULONG), output := s.output ++ h.bytes,
                       mem := m,
                       calls := s.calls ++
                         [.write h.address (words_of_bytes (rest.take (h.count * SIZEOF_ULONG)))] }⟩
          | .segv m =>
            ⟨.segv,
              { s with input := rest.drop (h.count * SIZEOF_ULONG), mem := m,
                       calls := s.calls ++
                         [.write h.address (words_of_bytes (rest.take (h.count * SIZEOF_ULONG)))] }⟩
      else if h.b0 = CH_c then ⟨.closed, { s with input := rest }⟩
      else ⟨.error .unknownControl, { s with input := rest }⟩ := by
  constructor
  · rfl
  · simp only [MonitorServer.service_step, hin, Header.bytes, recv, List.cons_append,
      List.nil_append, List.take_succ_cons, List.take_zero, List.drop_succ_cons, List.drop_zero,
      Header.count, Header.address]

/-! ## Header decoding (C5) -/

/-- C5 (header decoding): for every 8-byte header the decoded word count is
`bytes[2] + 256 * bytes[3]` with both octets taken as unsigned values, it never exceeds
`MAX_LENGTH = 65535`, the clamp maps every raw value to the smaller of it and `MAX_LENGTH`
(a larger one becomes 65535, nothing is rejected), and the decoded address is the native
(little-endian) 32-bit value of `bytes[4..8]`. -/
theorem header_decoding (h : Header) :
    h.count = h.b2.val + 256 * h.b3.val ∧
    h.count ≤ MAX_LENGTH ∧
    MAX_LENGTH = 65535 ∧
    (∀ raw : Nat, clamp_length raw = min raw MAX_LENGTH) ∧
    h.address = h.b4.val + 256 * h.b5.val + 65536 * h.b6.val + 16777216 * h.b7.val ∧
    h.address < 2 ^ 32 := by
  have hc : h.count = h.b2.val + 256 * h.b3.val := header_data_length_eq h.b2 h.b3
  refine ⟨hc, ?_, rfl, ?_, rfl, ?_⟩
  · rw [hc, MAX_LENGTH_eq]; omega
  · intro raw
    simp only [clamp_length, MAX_LENGTH_eq]
    split <;> omega
  · simp only [Header.address, header_address, ulong_of_bytes]; omega

/-- Sensitivity of the decoding to the platform: were plain `char` signed, the octet `0x80` in
`bytes[2]` would be promoted to `-128`, the `unsigned int` would hold `4294967168`, and the clamp
would turn it into 65535 instead of 128. On the target `char` is unsigned. -/
theorem raw_data_length_signed_char :
    raw_data_length true 128 0 = 4294967168 ∧ clamp_length (raw_data_length true 128 0) = 65535 ∧
    header_data_length 128 0 = 128 := by
  decide

/-! ## Zero word count (C6) -/

/-- C6 (zero count is a no-op): for every header whose decoded word count is 0, whatever its
command byte and address, one iteration of the service loop of either server consumes exactly
the 8 header bytes, sends nothing, calls neither `read_values` nor `write_values`, leaves memory
as it is, and is back awaiting a header. -/
theorem zero_count_is_noop (h : Header) (rest : List Byte) (s : Session)
    (hin : s.input = h.bytes ++ rest) (h0 : h.count = 0) :
    h.bytes.length = 8 ∧
    (MonitorServer.service_step s).status = .awaitingHeader ∧
    (MonitorServer.service_step s).session.input = rest ∧
    (MonitorServer.service_step s).quiet s ∧
    (PyrplServer.service_step s).status = .awaitingHeader ∧
    (PyrplServer.service_step s).session.input = rest ∧
    (PyrplServer.service_step s).quiet s := by
  obtain ⟨he, hm⟩ := service_step_header h rest s hin
  rw [he, hm, if_pos h0]
  simp [Result.quiet, Header.bytes]

/-- Witness of C6: a `'c'` header with count 0 and a nonzero address, followed by one more byte. -/
theorem zero_count_is_noop_witness :
    (⟨CH_c, 0, 0, 0, 1, 2, 3, 4⟩ : Header).count = 0 ∧
    (MonitorServer.service_step ⟨[CH_c, 0, 0, 0, 1, 2, 3, 4, 7], [], fun _ => 0, [], fun _ _ => none⟩).status
      = .awaitingHeader ∧
    (MonitorServer.service_step ⟨[CH_c, 0, 0, 0, 1, 2, 3, 4, 7], [], fun _ => 0, [], fun _ _ => none⟩).session.input
      = [7] :=
  have hw := zero_count_is_noop ⟨CH_c, 0, 0, 0, 1, 2, 3, 4⟩ [7]
    ⟨[CH_c, 0, 0, 0, 1, 2, 3, 4, 7], [], fun _ => 0, [], fun _ _ => none⟩ rfl (by decide)
  ⟨by decide, hw.2.1, hw.2.2.1⟩

/-! ## Close (C1) -/

/-- C1, counterexample: the header `'c' 0 0 0 0 0 0 0` (close with word count 0) does not end
the session; the iteration `continue`s and the session is awaiting the next header. -/
theorem close_with_zero_count_continues :
    (MonitorServer.service_step ⟨[CH_c, 0, 0, 0, 0, 0, 0, 0], [], fun _ => 0, [], fun _ _ => none⟩).status
      = .awaitingHeader ∧
    (MonitorServer.service_step ⟨[CH_c, 0, 0, 0, 0, 0, 0, 0], [], fun _ => 0, [], fun _ _ => none⟩).status
      ≠ .closed ∧
    (PyrplServer.service_step ⟨[CH_c, 0, 0, 0, 0, 0, 0, 0], [], fun _ => 0, [], fun _ _ => none⟩).status
      = .awaitingHeader ∧
    (PyrplServer.service_step ⟨[CH_c, 0, 0, 0, 0, 0, 0, 0], [], fun _ => 0, [], fun _ _ => none⟩).status
      ≠ .closed := by
  decide

/-- C1, amended: for every header whose command byte is `'c'` and whose decoded word count is
not 0, whatever its address, one iteration of the service loop of either server ends the session
normally, sends nothing and touches no register. -/
theorem close_terminates (h : Header) (rest : List Byte) (s : Session)
    (hin : s.input = h.bytes ++ rest) (hcmd : h.b0 = CH_c) (hcount : h.count ≠ 0) :
    (MonitorServer.service_step s).status = .closed ∧
    (MonitorServer.service_step s).quiet s ∧
    (PyrplServer.service_step s).status = .closed ∧
    (PyrplServer.service_step s).quiet s := by
  obtain ⟨he, hm⟩ := service_step_header h rest s hin
  have hr : ¬ (CH_c = CH_r) := by decide
  have hw : ¬ (CH_c = CH_w) := by decide
  rw [he, hm, if_neg hcount, hcmd, if_neg hr, if_neg hw, if_pos rfl]
  simp [Result.quiet]

/-- Witness of C1 amended: close header with word count 1. -/
theorem close_terminates_witness :
    (⟨CH_c, 0, 1, 0, 0, 0, 0, 0⟩ : Header).count ≠ 0 ∧
    (MonitorServer.service_step ⟨[CH_c, 0, 1, 0, 0, 0, 0, 0], [], fun _ => 0, [], fun _ _ => none⟩).status
      = .closed ∧
    (PyrplServer.service_step ⟨[CH_c, 0, 1, 0, 0, 0, 0, 0], [], fun _ => 0, [], fun _ _ => none⟩).status
      = .closed :=
  have hw := close_terminates ⟨CH_c, 0, 1, 0, 0, 0, 0, 0⟩ []
    ⟨[CH_c, 0, 1, 0, 0, 0, 0, 0], [], fun _ => 0, [], fun _ _ => none⟩ rfl rfl (by decide)
  ⟨by decide, hw.1, hw.2.2.1⟩

/-! ## Unknown command (C2) -/

/-- C2, counterexample: the header `'x' 0 0 0 0 0 0 0` (unknown command, word count 0) does not
end the session with the desynchronisation error; the iteration `continue`s. -/
theorem unknown_with_zero_count_continues :
    (MonitorServer.service_step ⟨[120, 0, 0, 0, 0, 0, 0, 0], [], fun _ => 0, [], fun _ _ => none⟩).status
      = .awaitingHeader ∧
    (MonitorServer.service_step ⟨[120, 0, 0, 0, 0, 0, 0, 0], [], fun _ => 0, [], fun _ _ => none⟩).status
      ≠ .error .unknownControl ∧
    (PyrplServer.service_step ⟨[120, 0, 0, 0, 0, 0, 0, 0], [], fun _ => 0, [], fun _ _ => none⟩).status
      = .awaitingHeader ∧
    (PyrplServer.service_step ⟨[120, 0, 0, 0, 0, 0, 0, 0], [], fun _ => 0, [], fun _ _ => none⟩).status
      ≠ .error .unknownControl := by
  decide

/-- C2, amended: for every header whose command byte is none of `'r'`, `'w'`, `'c'` and whose
decoded word count is not 0, one iteration of the service loop of either server ends the session
with the "unknown control character - server and client out of sync" error, sends nothing and
calls neither `read_values` nor `write_values` (memory is unchanged). -/
theorem unknown_command_desync (h : Header) (rest : List Byte) (s : Session)
    (hin : s.input = h.bytes ++ rest)
    (hr : h.b0 ≠ CH_r) (hw : h.b0 ≠ CH_w) (hc : h.b0 ≠ CH_c) (hcount : h.count ≠ 0) :
    (MonitorServer.service_step s).status = .error .unknownControl ∧
    (MonitorServer.service_step s).quiet s ∧
    (PyrplServer.service_step s).status = .error .unknownControl ∧
    (PyrplServer.service_step s).quiet s := by
  obtain ⟨he, hm⟩ := service_step_header h rest s hin
  rw [he, hm, if_neg hcount, if_neg hr, if_neg hw, if_neg hc]
  simp [Result.quiet]

/-- Witness of C2 amended: command `'x'` with word count 513. -/
theorem unknown_command_desync_witness :
    (⟨120, 0, 1, 2, 0, 0, 0, 0⟩ : Header).count ≠ 0 ∧
    (MonitorServer.service_step ⟨[120, 0, 1, 2, 0, 0, 0, 0], [], fun _ => 0, [], fun _ _ => none⟩).status
      = .error .unknownControl ∧
    (PyrplServer.service_step ⟨[120, 0, 1, 2, 0, 0, 0, 0], [], fun _ => 0, [], fun _ _ => none⟩).status
      = .error .unknownControl :=
  have hw := unknown_command_desync ⟨120, 0, 1, 2, 0, 0, 0, 0⟩ []
    ⟨[120, 0, 1, 2, 0, 0, 0, 0], [], fun _ => 0, [], fun _ _ => none⟩ rfl
    (by decide) (by decide) (by decide) (by decide)
  ⟨by decide, hw.1, hw.2.2.1⟩

/-! ## The mask -/

theorem and_MAP_MASK (a : Nat) : a &&& MAP_MASK = a % MAP_SIZE := by
  have h := Nat.and_pow_two_sub_one_eq_mod a 17
  have h1 : MAP_MASK = 2 ^ 17 - 1 := by decide
  have h2 : MAP_SIZE = 2 ^ 17 := by decide
  rw [h1, h2, h]

theorem and_NOT_MAP_MASK (a : Nat) (ha : a < 2 ^ 32) :
    a &&& NOT_MAP_MASK = MAP_SIZE * (a / MAP_SIZE) := by
  have hM : NOT_MAP_MASK = 2 ^ 32 - ((2 ^ 17 - 1) + 1) := by decide
  have hS : MAP_SIZE = 2 ^ 17 := by decide
  have hlt : 2 ^ 17 - 1 < 2 ^ 32 := by decide
  rw [hM, hS]
  apply Nat.eq_of_testBit_eq
  intro i
  rw [Nat.testBit_and, Nat.testBit_two_pow_sub_succ hlt, Nat.testBit_two_pow_sub_one,
    Nat.testBit_mul_pow_two, ← Nat.shiftRight_eq_div_pow, Nat.testBit_shiftRight]
  by_cases h17 : i < 17
  · have : ¬ (i ≥ 17) := by omega
    simp [h17, this]
  · have h17' : i ≥ 17 := by omega
    have hi : 17 + (i - 17) = i := by omega
    by_cases h32 : i < 32
    · simp [h17, h17', h32, hi]
    · have hpow : a < 2 ^ i :=
        Nat.lt_of_lt_of_le ha (Nat.pow_le_pow_right (by decide) (by omega))
      simp [h17, h17', h32, hi, Nat.testBit_lt_two_pow hpow]

theorem access_offset_succ (a i : Nat) : access_offset a (i + 1) = access_offset a i + 4 := by
  simp only [access_offset, SIZEOF_ULONG]; omega

theorem access_phys_succ (a i : Nat) : access_phys a (i + 1) = access_phys a i + 4 := by
  simp only [access_phys, access_offset_succ]; omega

theorem access_offset_add (a i k : Nat) : access_offset a (i + k) = access_offset a i + 4 * k := by
  simp only [access_offset, SIZEOF_ULONG]; omega

theorem access_phys_add (a i k : Nat) : access_phys a (i + k) = access_phys a i + 4 * k := by
  simp only [access_phys, access_offset_add]; omega

/-- Inside the mapping the physical address of access `i` is `a_addr + 4 * i`: the mmap
offset `a_addr & ~MAP_MASK` and the masked offset add up to the address itself. -/
theorem access_phys_eq (a i : Nat) (ha : a < 2 ^ 32) : access_phys a i = a + 4 * i := by
  have h1 := and_NOT_MAP_MASK a ha
  have h2 := and_MAP_MASK a
  have h3 := Nat.div_add_mod a MAP_SIZE
  simp only [access_phys, access_offset, SIZEOF_ULONG, h1, h2]
  omega

/-! ## Loads and stores -/

theorem load_store_same (mem : Mem) (p v : Nat) :
    load_ulong (store_ulong mem p v) p = v % 4294967296 := by
  have h1 : ¬ (p + 1 = p) := by omega
  have h2 : ¬ (p + 2 = p) := by omega
  have h3 : ¬ (p + 2 = p + 1) := by omega
  have h4 : ¬ (p + 3 = p) := by omega
  have h5 : ¬ (p + 3 = p + 1) := by omega
  have h6 : ¬ (p + 3 = p + 2) := by omega
  simp only [load_ulong, store_ulong, ulong_of_bytes, byte_of, if_true, if_false, h1, h2, h3,
    h4, h5, h6]
  omega

theorem store_other (mem : Mem) (p v q : Nat) (hq : q < p ∨ p + 4 ≤ q) :
    store_ulong mem p v q = mem q := by
  have h0 : ¬ (q = p) := by omega
  have h1 : ¬ (q = p + 1) := by omega
  have h2 : ¬ (q = p + 2) := by omega
  have h3 : ¬ (q = p + 3) := by omega
  simp only [store_ulong, h0, h1, h2, h3, if_false]

theorem load_congr (m1 m2 : Mem) (p : Nat)
    (h : ∀ q, p ≤ q → q < p + 4 → m1 q = m2 q) : load_ulong m1 p = load_ulong m2 p := by
  simp only [load_ulong]
  rw [h p (by omega) (by omega), h (p + 1) (by omega) (by omega),
    h (p + 2) (by omega) (by omega), h (p + 3) (by omega) (by omega)]

theorem load_lt (mem : Mem) (p : Nat) : load_ulong mem p < 4294967296 := by
  simp only [load_ulong, ulong_of_bytes]; omega

/-! ## The loops of `read_values` and `write_values` -/

/-- A load inside the mapping finds the word of physical memory behind it, whatever lies
after the mapping. -/
theorem load_mapped_in_window (mem : Mem) (outside : Outside) (a i : Nat)
    (hw : in_window (access_offset a i)) :
    load_mapped mem outside a i = some (load_ulong mem (access_phys a i)) := by
  simp only [in_window, SIZEOF_ULONG] at hw
  have h0 : access_offset a i < MAP_SIZE := by omega
  have h1 : access_offset a i + 1 < MAP_SIZE := by omega
  have h2 : access_offset a i + 2 < MAP_SIZE := by omega
  have h3 : access_offset a i + 3 < MAP_SIZE := by omega
  simp only [load_mapped, mapped_byte, h0, h1, h2, h3, if_true, load_ulong, access_phys,
    Nat.add_assoc]

/-- A load at or past the end of the mapping finds the four bytes the process has there, and
traps when one of them is not readable; physical memory plays no part. -/
theorem load_mapped_past_window (mem : Mem) (outside : Outside) (a i : Nat)
    (hw : MAP_SIZE ≤ access_offset a i) :
    load_mapped mem outside a i =
      match outside (access_offset a i - MAP_SIZE), outside (access_offset a i + 1 - MAP_SIZE),
            outside (access_offset a i + 2 - MAP_SIZE),
            outside (access_offset a i + 3 - MAP_SIZE) with
      | some b0, some b1, some b2, some b3 => some (ulong_of_bytes b0 b1 b2 b3)
      | _, _, _, _ => none := by
  have h0 : ¬ (access_offset a i < MAP_SIZE) := by omega
  have h1 : ¬ (access_offset a i + 1 < MAP_SIZE) := by omega
  have h2 : ¬ (access_offset a i + 2 < MAP_SIZE) := by omega
  have h3 : ¬ (access_offset a i + 3 < MAP_SIZE) := by omega
  simp only [load_mapped, mapped_byte, h0, h1, h2, h3, if_false]

/-- While every access stays inside the mapping, the read loop returns the words loaded at
the successive physical addresses, whatever lies after the mapping. -/
theorem read_loop_in_window (mem : Mem) (outside : Outside) (a : Nat) :
    ∀ (n i : Nat), access_offset a i + 4 * n ≤ MAP_SIZE →
      read_loop mem outside a i n
        = some ((List.range n).map (fun k => load_ulong mem (access_phys a (i + k))))
  | 0, _, _ => rfl
  | n + 1, i, h => by
    have hw : in_window (access_offset a i) := by
      simp only [in_window, SIZEOF_ULONG]; omega
    have ih := read_loop_in_window mem outside a n (i + 1)
      (by rw [access_offset_succ]; omega)
    simp only [read_loop, load_mapped_in_window mem outside a i hw, ih,
      List.range_succ_eq_map, List.map_cons, List.map_map, Nat.add_zero]
    congr 2
    apply List.map_congr_left
    intro k _
    simp only [Function.comp, Nat.succ_eq_add_one]
    congr 2
    omega

/-- While every access stays inside the mapping, the write loop runs to its end; afterwards
word `k` of the list is stored at the physical address of access `i + k`, and every byte
outside the written range is as before. -/
theorem write_loop_in_window (a : Nat) :
    ∀ (vs : List Nat) (i : Nat) (mem : Mem), access_offset a i + 4 * vs.length ≤ MAP_SIZE →
      ∃ mem', write_loop a i vs mem = .ok mem' ∧
        (∀ k w, vs[k]? = some w → load_ulong mem' (access_phys a (i + k)) = w % 4294967296) ∧
        (∀ p, p < access_phys a i ∨ access_phys a i + 4 * vs.length ≤ p → mem' p = mem p)
  | [], i, mem, _ => ⟨mem, rfl, by simp, fun _ _ => rfl⟩
  | v :: vs, i, mem, h => by
    simp only [List.length_cons] at h
    have hw : in_window (access_offset a i) := by
      simp only [in_window, SIZEOF_ULONG]; omega
    obtain ⟨mem', hrun, hload, hframe⟩ :=
      write_loop_in_window a vs (i + 1) (store_ulong mem (access_phys a i) v)
        (by rw [access_offset_succ]; omega)
    rw [access_phys_succ] at hframe
    refine ⟨mem', ?_, ?_, ?_⟩
    · simp only [write_loop, hw, if_true, hrun]
    · intro k w hk
      cases k with
      | zero =>
        simp only [List.getElem?_cons_zero, Option.some.injEq] at hk
        subst hk
        rw [Nat.add_zero, ← load_store_same mem (access_phys a i) v]
        apply load_congr
        intro q _ hq2
        exact hframe q (Or.inl (by omega))
      | succ k =>
        simp only [List.getElem?_cons_succ] at hk
        have := hload k w hk
        rwa [show i + 1 + k = i + (k + 1) by omega] at this
    · intro p hp
      simp only [List.length_cons] at hp
      rw [hframe p (by omega)]
      exact store_other mem (access_phys a i) v p (by omega)

/-- As soon as the last access of the write loop ends beyond the mapping, the loop faults
(after the stores that precede the first access outside). -/
theorem write_loop_out_of_window (a : Nat) :
    ∀ (vs : List Nat) (i : Nat) (mem : Mem), access_offset a i ≤ MAP_SIZE →
      MAP_SIZE < access_offset a i + 4 * vs.length → ∃ m, write_loop a i vs mem = .segv m
  | [], _, _, h1, h2 => by simp only [List.length_nil] at h2; omega
  | v :: vs, i, mem, h1, h2 => by
    simp only [List.length_cons] at h2
    by_cases hw : in_window (access_offset a i)
    · have hw' := hw
      simp only [in_window, SIZEOF_ULONG] at hw'
      obtain ⟨m, hm⟩ := write_loop_out_of_window a vs (i + 1)
        (store_ulong mem (access_phys a i) v)
        (by rw [access_offset_succ]; omega) (by rw [access_offset_succ]; omega)
      exact ⟨m, by simp only [write_loop, hw, if_true, hm]⟩
    · exact ⟨mem, by simp only [write_loop, hw, if_false]⟩

/-- Inside the mapping `read_values` returns the words at physical addresses
`a_addr + 4 * i`, `i < a_len`, whatever lies after the mapping. -/
theorem read_values_in_window (mem : Mem) (outside : Outside) (a c : Nat) (ha : a < 2 ^ 32)
    (hwin : (a &&& MAP_MASK) + 4 * c ≤ MAP_SIZE) :
    read_values mem outside a c
      = some ((List.range c).map (fun i => load_ulong mem (a + 4 * i))) := by
  have h0 : access_offset a 0 = a &&& MAP_MASK := by simp [access_offset]
  rw [read_values, read_loop_in_window mem outside a c 0 (by rw [h0]; omega)]
  congr 1
  apply List.map_congr_left
  intro i _
  rw [access_phys_eq a (0 + i) ha, Nat.zero_add]

/-- Two lists of loaded words are equal exactly when they agree at every index. -/
theorem map_range_eq_iff (f g : Nat → Nat) (c : Nat) :
    (List.range c).map f = (List.range c).map g ↔ ∀ i, i < c → f i = g i := by
  constructor
  · intro h i hi
    have hi' := congrArg (fun l => l[i]?) h
    simpa [List.getElem?_map, List.getElem?_range hi] using hi'
  · intro h
    apply List.map_congr_left
    intro i hi
    exact h i (List.mem_range.1 hi)

/-! ## Address wraparound (C3) -/

/-- C3, counterexample: over the memory with word 1 at physical address `MAP_SIZE` and zeros
elsewhere, `read_values` of one word at address `MAP_SIZE + 0` returns 1 and at address `0`
returns 0: the mapping is made at file offset `a_addr & ~MAP_MASK`, so the two reads go to
different physical words. -/
theorem read_at_MAP_SIZE_differs :
    read_values mem_one_at_MAP_SIZE (fun _ => none) (MAP_SIZE + 0) 1 = some [1] ∧
    read_values mem_one_at_MAP_SIZE (fun _ => none) 0 1 = some [0] ∧
    read_values mem_one_at_MAP_SIZE (fun _ => none) (MAP_SIZE + 0) 1
      ≠ read_values mem_one_at_MAP_SIZE (fun _ => none) 0 1 := by
  decide

/-- C3, amended: for every offset `k` with `MAP_SIZE + k` a 32-bit address and every word count
`c` whose accesses stay inside the mapped window (`(k & MAP_MASK) + 4 * c ≤ MAP_SIZE`),
`read_values` at address `MAP_SIZE + k` returns the `c` physical words at
`MAP_SIZE + k + 4 * i`, `read_values` at address `k` returns the `c` physical words at
`k + 4 * i`, and the two results are equal exactly when physical memory holds the same word
at `MAP_SIZE + k + 4 * i` and at `k + 4 * i` for every `i < c`. The mask folds only the offset
inside the mapped window; the window itself starts at `a_addr & ~MAP_MASK`, which follows the
address. -/
theorem read_at_MAP_SIZE_plus (mem : Mem) (outside : Outside) (k c : Nat)
    (hk : MAP_SIZE + k < 2 ^ 32) (hwin : (k &&& MAP_MASK) + 4 * c ≤ MAP_SIZE) :
    read_values mem outside (MAP_SIZE + k) c
      = some ((List.range c).map (fun i => load_ulong mem (MAP_SIZE + k + 4 * i))) ∧
    read_values mem outside k c
      = some ((List.range c).map (fun i => load_ulong mem (k + 4 * i))) ∧
    (read_values mem outside (MAP_SIZE + k) c = read_values mem outside k c ↔
      ∀ i, i < c → load_ulong mem (MAP_SIZE + k + 4 * i) = load_ulong mem (k + 4 * i)) := by
  have hmask : (MAP_SIZE + k) &&& MAP_MASK = k &&& MAP_MASK := by
    rw [and_MAP_MASK, and_MAP_MASK, Nat.add_mod_left]
  have h1 := read_values_in_window mem outside (MAP_SIZE + k) c hk (by rw [hmask]; exact hwin)
  have h2 := read_values_in_window mem outside k c (by omega) hwin
  refine ⟨h1, h2, ?_⟩
  rw [h1, h2, Option.some.injEq]
  exact map_range_eq_iff _ _ c

/-- Witness of C3 amended: two words at `MAP_SIZE + 0` over the memory with word 1 at physical
address `MAP_SIZE`: the read returns the words 1 and 0 found there, the read at `0` returns
0 and 0. -/
theorem read_at_MAP_SIZE_plus_witness :
    MAP_SIZE + 0 < 2 ^ 32 ∧ (0 &&& MAP_MASK) + 4 * 2 ≤ MAP_SIZE ∧
    read_values mem_one_at_MAP_SIZE (fun _ => none) (MAP_SIZE + 0) 2 = some [1, 0] ∧
    read_values mem_one_at_MAP_SIZE (fun _ => none) 0 2 = some [0, 0] :=
  have hw := read_at_MAP_SIZE_plus mem_one_at_MAP_SIZE (fun _ => none) 0 2
    (by decide) (by decide)
  ⟨by decide, by decide, hw.1.trans (by decide), hw.2.1.trans (by decide)⟩

/-! ## Accesses outside the mapping (C4) -/

/-- Two words read at `0x4001FFFC` in a process with readable bytes after the mapping: the
second word is made of the four bytes that follow the mapping, not of physical memory. -/
theorem read_values_past_end (mem : Mem) (outside : Outside) (o0 o1 o2 o3 : Byte)
    (h0 : outside 0 = some o0) (h1 : outside 1 = some o1) (h2 : outside 2 = some o2)
    (h3 : outside 3 = some o3) :
    read_values mem outside 0x4001FFFC 2
      = some [load_ulong mem 0x4001FFFC, ulong_of_bytes o0 o1 o2 o3] := by
  have hw0 : in_window (access_offset 0x4001FFFC 0) := by decide
  have hw1 : MAP_SIZE ≤ access_offset 0x4001FFFC 1 := by decide
  have hp : access_phys 0x4001FFFC 0 = 0x4001FFFC := by decide
  have ho : access_offset 0x4001FFFC 1 = MAP_SIZE := by decide
  have hl1 := load_mapped_past_window mem outside 0x4001FFFC 1 hw1
  rw [ho] at hl1
  simp only [Nat.sub_self, Nat.add_sub_cancel_left, h0, h1, h2, h3] at hl1
  simp only [read_values, read_loop, load_mapped_in_window mem outside 0x4001FFFC 0 hw0, hp, hl1]

/-- Two words read at `0x4001FFFC` in a process with no readable page after the mapping: the
second load traps. -/
theorem read_values_past_end_trap (mem : Mem) (outside : Outside) (h0 : outside 0 = none) :
    read_values mem outside 0x4001FFFC 2 = none := by
  have hw0 : in_window (access_offset 0x4001FFFC 0) := by decide
  have hw1 : MAP_SIZE ≤ access_offset 0x4001FFFC 1 := by decide
  have ho : access_offset 0x4001FFFC 1 = MAP_SIZE := by decide
  have hl1 := load_mapped_past_window mem outside 0x4001FFFC 1 hw1
  rw [ho] at hl1
  simp only [Nat.sub_self, h0] at hl1
  simp only [read_values, read_loop, load_mapped_in_window mem outside 0x4001FFFC 0 hw0, hl1]

/-- Two words written at `0x4001FFFC`: the first is stored, the second access is outside the
mapping. -/
theorem write_values_past_end (mem : Mem) (v0 v1 : Nat) :
    write_values mem 0x4001FFFC [v0, v1] = .segv (store_ulong mem 0x4001FFFC v0) := by
  have h0 : in_window (access_offset 0x4001FFFC 0) := by decide
  have h1 : ¬ in_window (access_offset 0x4001FFFC 1) := by decide
  have hp : access_phys 0x4001FFFC 0 = 0x4001FFFC := by decide
  simp only [write_values, write_loop, h0, h1, if_true, if_false, hp]

/-- C4, the code at a failing input: at address `0x4001FFFC` with two words, access 0 is the
last word of the mapping and access 1 has offset `MAP_SIZE` from `map_base`, outside the
`MAP_SIZE` mapped bytes. Nothing wraps the index: `read_values` takes its second word from the
bytes that follow the mapping in the process (and traps where no readable page follows), and
`write_values` traps after storing the first word. -/
theorem access_outside_window :
    access_offset 0x4001FFFC 0 = MAP_SIZE - 4 ∧
    access_offset 0x4001FFFC 1 = MAP_SIZE ∧
    ¬ access_offset 0x4001FFFC 1 < MAP_SIZE ∧
    (∀ (mem : Mem) (o0 o1 o2 o3 : Byte),
      read_values mem (outside_bytes [o0, o1, o2, o3] 0) 0x4001FFFC 2
        = some [load_ulong mem 0x4001FFFC, ulong_of_bytes o0 o1 o2 o3]) ∧
    (∀ mem : Mem, read_values mem (fun _ => none) 0x4001FFFC 2 = none) ∧
    (∀ (mem : Mem) (v0 v1 : Nat),
      write_values mem 0x4001FFFC [v0, v1] = .segv (store_ulong mem 0x4001FFFC v0)) :=
  ⟨by decide, by decide, by decide,
    fun mem o0 o1 o2 o3 =>
      read_values_past_end mem (outside_bytes [o0, o1, o2, o3] 0) o0 o1 o2 o3 rfl rfl rfl rfl,
    fun mem => read_values_past_end_trap mem (fun _ => none) rfl, write_values_past_end⟩

/-! ## Round trip (C7) -/

/-- C7 (write/read round trip): for every address `a` and every list of `c` 32-bit words such
that the `c` accesses from `a` stay in the window without crossing its end
(`(a & MAP_MASK) + 4 * c ≤ MAP_SIZE`), `write_values` of the words at `a` runs to its end and
`read_values` of `c` words at `a` then returns exactly the written words. This holds for every
`c`; the window bound allows `c` up to 32768 of the range `[1, 65535]`. -/
theorem write_read_round_trip (mem : Mem) (a : Nat) (ws : List Nat)
    (hword : ∀ w ∈ ws, w < 2 ^ 32)
    (hwin : (a &&& MAP_MASK) + 4 * ws.length ≤ MAP_SIZE) :
    ∃ mem', write_values mem a ws = .ok mem' ∧
      ∀ outside : Outside, read_values mem' outside a ws.length = some ws := by
  have h0 : access_offset a 0 = a &&& MAP_MASK := by simp [access_offset]
  obtain ⟨mem', hrun, hload, _⟩ := write_loop_in_window a ws 0 mem (by rw [h0]; omega)
  refine ⟨mem', hrun, fun outside => ?_⟩
  rw [read_values, read_loop_in_window mem' outside a ws.length 0 (by rw [h0]; omega)]
  congr 1
  apply List.ext_getElem?
  intro k
  by_cases hk : k < ws.length
  · have hget : ws[k]? = some ws[k] := List.getElem?_eq_getElem hk
    have hlt : ws[k] < 2 ^ 32 := hword _ (List.getElem_mem hk)
    rw [List.getElem?_map, List.getElem?_range hk, hget, Option.map_some', hload k ws[k] hget]
    congr 1
    omega
  · rw [List.getElem?_eq_none (by simpa using hk), List.getElem?_eq_none (by simpa using hk)]

/-- Witness of C7: two words written at `0x40000010` and read back. -/
theorem write_read_round_trip_witness :
    ((0x40000010 &&& MAP_MASK) + 4 * [0xDEADBEEF, 7].length ≤ MAP_SIZE) ∧
    ∃ mem', write_values (fun _ => 0) 0x40000010 [0xDEADBEEF, 7] = .ok mem' ∧
      ∀ outside : Outside,
        read_values mem' outside 0x40000010 [0xDEADBEEF, 7].length = some [0xDEADBEEF, 7] :=
  ⟨by decide, write_read_round_trip (fun _ => 0) 0x40000010 [0xDEADBEEF, 7]
    (by decide) (by decide)⟩

/-! ## Authenticated handshake (C8) -/

/-- On a received buffer and a token of the same length, both followed by their terminator,
`strcmp` returns, and returns 0 exactly when the two agree octet for octet, provided the token
holds no NUL. -/
theorem strcmp_terminated :
    ∀ (token received : List Byte), (∀ b ∈ token, b ≠ 0) → received.length = token.length →
      ∃ d, PyrplServer.strcmp (received ++ [0]) (token ++ [0]) = some d ∧
        (d = 0 ↔ received = token)
  | [], [], _, _ => ⟨0, by simp [PyrplServer.strcmp], by simp⟩
  | [], _ :: _, _, hl => by simp at hl
  | _ :: _, [], _, hl => by simp at hl
  | b :: token, a :: received, hz, hl => by
    have hb : b ≠ 0 := hz b (List.mem_cons_self _ _)
    have hstep : PyrplServer.strcmp ((a :: received) ++ [0]) ((b :: token) ++ [0])
        = if a ≠ b then some ((a.val : Int) - (b.val : Int))
          else if a = 0 then some 0
          else PyrplServer.strcmp (received ++ [0]) (token ++ [0]) := rfl
    rw [hstep]
    by_cases hab : a = b
    · subst hab
      obtain ⟨d, hd, hiff⟩ := strcmp_terminated token received
        (fun c hc => hz c (List.mem_cons_of_mem _ hc)) (by simpa using hl)
      refine ⟨d, ?_, ?_⟩
      · simp only [ne_eq, not_true_eq_false, if_false, hb, hd]
      · simp only [hiff, List.cons.injEq, true_and]
    · refine ⟨(a.val : Int) - (b.val : Int), ?_, ?_⟩
      · simp only [ne_eq, hab, not_false_eq_true, if_true]
      · have hv : a.val ≠ b.val := fun h => hab (Fin.ext h)
        constructor
        · intro h; omega
        · intro h; simp only [List.cons.injEq] at h; exact absurd h.1 hab

/-- C8 (authenticated handshake): for every configured token that passed the start-up check
(32 characters) and every 32 bytes received from the client, NUL bytes included, the handshake
of pyrpl_server.c goes on to await a header exactly when the 32 received bytes equal the token
byte for byte; on a match it sends exactly thirty-two `'1'` characters; on a mismatch it sends
exactly the 32 bytes of the token and ends the session with the authentication error. Nothing
else is sent, exactly the 32 bytes are consumed, and no register is touched. -/
theorem handshake_token_check (token received rest : List Byte) (s : Session)
    (htok : PyrplServer.token_ok token) (hlen : received.length = 32)
    (hin : s.input = received ++ rest) :
    ((PyrplServer.handshake token s).status = .awaitingHeader ↔ received = token) ∧
    (received = token →
      (PyrplServer.handshake token s).session.output = s.output ++ List.replicate 32 CH_1) ∧
    (received ≠ token →
      (PyrplServer.handshake token s).status = .error .authFailure ∧
      (PyrplServer.handshake token s).session.output = s.output ++ token) ∧
    token.length = 32 ∧
    (PyrplServer.handshake token s).session.input = rest ∧
    (PyrplServer.handshake token s).session.mem = s.mem ∧
    (PyrplServer.handshake token s).session.calls = s.calls := by
  obtain ⟨htl, hz⟩ := htok
  obtain ⟨d, hd, hiff⟩ := strcmp_terminated token received hz (by rw [hlen, htl])
  have htake : List.take 32 (received ++ rest) = received := by
    rw [← hlen]; exact List.take_left' rfl
  have hdrop : List.drop 32 (received ++ rest) = rest := by
    rw [← hlen]; exact List.drop_left' rfl
  have htt : List.take 32 token = token := by
    rw [← htl]; exact List.take_length token
  have hrun : PyrplServer.handshake token s =
      if d ≠ 0 then
        ⟨.error .authFailure, { s with input := rest, output := s.output ++ token }⟩
      else
        ⟨.awaitingHeader, { s with input := rest, output := s.output ++ PyrplServer.ACK_TOKEN }⟩ := by
    simp only [PyrplServer.handshake, recv, hin, htake, hdrop, hlen, hd, htt, ne_eq,
      not_true_eq_false, if_false]
  rw [hrun]
  by_cases hd0 : d = 0
  · have heq : received = token := hiff.1 hd0
    simp only [ne_eq, hd0, not_true_eq_false, if_false, heq, true_iff, htl, and_true, true_and,
      forall_const, PyrplServer.ACK_TOKEN, not_false_eq_true, IsEmpty.forall_iff]
  · have heq : received ≠ token := fun h => hd0 (hiff.2 h)
    simp only [ne_eq, hd0, not_false_eq_true, if_true, heq, htl, and_true, true_and,
      IsEmpty.forall_iff, forall_const, false_iff]
    constructor
    · intro h
      exact Status.noConfusion h
    · exact False.elim

/-- Witness of C8: the token of thirty-two `'0'` characters against 32 received NUL bytes
followed by one more byte; the server answers with the token and ends with the
authentication error. -/
theorem handshake_token_check_witness :
    PyrplServer.token_ok (List.replicate 32 48) ∧
    (List.replicate 32 (0 : Byte)).length = 32 ∧
    (PyrplServer.handshake (List.replicate 32 48)
      ⟨List.replicate 32 0 ++ [5], [], fun _ => 0, [], fun _ _ => none⟩).status = .error .authFailure ∧
    (PyrplServer.handshake (List.replicate 32 48)
      ⟨List.replicate 32 0 ++ [5], [], fun _ => 0, [], fun _ _ => none⟩).session.output
        = [] ++ List.replicate 32 48 :=
  have htok : PyrplServer.token_ok (List.replicate 32 48) :=
    ⟨List.length_replicate 32 48, fun b hb => by rw [List.eq_of_mem_replicate hb]; decide⟩
  have hne : List.replicate 32 (0 : Byte) ≠ List.replicate 32 48 := by
    simp [List.replicate]
  ⟨htok, List.length_replicate 32 0,
    (handshake_token_check (List.replicate 32 48) (List.replicate 32 0) [5]
      ⟨List.replicate 32 0 ++ [5], [], fun _ => 0, [], fun _ _ => none⟩ htok (List.length_replicate 32 0)
      rfl).2.2.1 hne⟩

/-! ## Payload encoding -/

theorem bytes_of_words_length : ∀ ws : List Nat, (bytes_of_words ws).length = 4 * ws.length
  | [] => rfl
  | v :: vs => by
    simp only [bytes_of_words, ulong_bytes, List.cons_append, List.nil_append, List.length_cons,
      bytes_of_words_length vs]
    omega

/-- Word `i` of a payload occupies its bytes `4 * i .. 4 * i + 3`, in memory order. -/
theorem bytes_of_words_chunk :
    ∀ (ws : List Nat) (i w : Nat), ws[i]? = some w →
      ((bytes_of_words ws).drop (4 * i)).take 4 = ulong_bytes w
  | [], i, w, h => by simp at h
  | v :: vs, 0, w, h => by
    simp only [List.getElem?_cons_zero, Option.some.injEq] at h
    subst h
    simp [bytes_of_words, ulong_bytes]
  | v :: vs, i + 1, w, h => by
    simp only [List.getElem?_cons_succ] at h
    have ih := bytes_of_words_chunk vs i w h
    have h4 : 4 * (i + 1) = 4 * i + 1 + 1 + 1 + 1 := by omega
    simp only [bytes_of_words, ulong_bytes, List.cons_append, List.nil_append, h4,
      List.drop_succ_cons]
    exact ih

theorem words_of_bytes_length : ∀ bs : List Byte, (words_of_bytes bs).length = bs.length / 4
  | [] => by simp [words_of_bytes]
  | [_] => by simp [words_of_bytes]
  | [_, _] => by simp [words_of_bytes]
  | [_, _, _] => by simp [words_of_bytes]
  | b0 :: b1 :: b2 :: b3 :: rest => by
    simp only [words_of_bytes, List.length_cons, words_of_bytes_length rest]
    omega

theorem words_of_bytes_lt : ∀ (bs : List Byte) (w : Nat), w ∈ words_of_bytes bs → w < 2 ^ 32
  | [], w, h => by simp [words_of_bytes] at h
  | [_], w, h => by simp [words_of_bytes] at h
  | [_, _], w, h => by simp [words_of_bytes] at h
  | [_, _, _], w, h => by simp [words_of_bytes] at h
  | b0 :: b1 :: b2 :: b3 :: rest, w, h => by
    simp only [words_of_bytes, List.mem_cons] at h
    rcases h with h | h
    · subst h; simp only [ulong_of_bytes]; omega
    · exact words_of_bytes_lt rest w h

/-- The memory-order bytes of a word made of four bytes are these four bytes. -/
theorem ulong_bytes_of_bytes (b0 b1 b2 b3 : Byte) :
    ulong_bytes (ulong_of_bytes b0 b1 b2 b3) = [b0, b1, b2, b3] := by
  simp only [ulong_bytes, ulong_of_bytes, byte_of, List.cons.injEq, and_true]
  refine ⟨Fin.ext ?_, Fin.ext ?_, Fin.ext ?_, Fin.ext ?_⟩ <;> simp only [] <;> omega

/-! ## Read reply (C9) -/

/-- Reply framing of a read whose accesses stay inside the mapping: for every header with
command `'r'`, nonzero count `c` and `(address & MAP_MASK) + 4 * c ≤ MAP_SIZE`, `read_values`
returns `c` words, word `i` being the one at physical address `address + 4 * i`, and both
servers send a reply of exactly `8 + 4 * c` bytes, made of the 8 header bytes followed, for
every `i < c`, by the four bytes in memory order of word `i`; memory is unchanged and the
session awaits the next header. -/
theorem read_reply_in_window (h : Header) (rest : List Byte) (s : Session)
    (hin : s.input = h.bytes ++ rest) (hcmd : h.b0 = CH_r) (hcount : h.count ≠ 0)
    (hwin : (h.address &&& MAP_MASK) + 4 * h.count ≤ MAP_SIZE) :
    ∃ (words : List Nat) (reply : List Byte),
      read_values s.mem (s.outside s.calls.length) h.address h.count = some words ∧
      words.length = h.count ∧
      (∀ i, i < h.count → words[i]? = some (load_ulong s.mem (h.address + 4 * i))) ∧
      MonitorServer.service_step s =
        ⟨.awaitingHeader, { s with input := rest, output := s.output ++ reply,
                                   calls := s.calls ++ [.read h.address h.count] }⟩ ∧
      PyrplServer.service_step s = MonitorServer.service_step s ∧
      reply.length = 8 + 4 * h.count ∧
      reply.take 8 = h.bytes ∧
      ∀ i w, words[i]? = some w → (reply.drop (8 + 4 * i)).take 4 = ulong_bytes w := by
  have haddr : h.address < 2 ^ 32 := by
    simp only [Header.address, header_address, ulong_of_bytes]; omega
  have hread := read_values_in_window s.mem (s.outside s.calls.length) h.address h.count
    haddr hwin
  obtain ⟨he, hm⟩ := service_step_header h rest s hin
  refine ⟨(List.range h.count).map (fun i => load_ulong s.mem (h.address + 4 * i)),
    h.bytes ++ bytes_of_words
      ((List.range h.count).map (fun i => load_ulong s.mem (h.address + 4 * i))),
    hread, ?_, ?_, ?_, he, ?_, ?_, ?_⟩
  · simp only [List.length_map, List.length_range]
  · intro i hi
    rw [List.getElem?_map, List.getElem?_range hi, Option.map_some']
  · rw [hm, if_neg hcount, if_pos hcmd, hread]
  · simp only [List.length_append, bytes_of_words_length, List.length_map, List.length_range,
      Header.bytes, List.length_cons, List.length_nil]
  · simp [Header.bytes]
  · intro i w hw
    have h8 : 8 + 4 * i = h.bytes.length + 4 * i := by simp [Header.bytes]
    rw [h8, List.drop_append]
    exact bytes_of_words_chunk _ i w hw

/-- The header `'r' 00 02 00 FC FF 01 40` in a process where the readable bytes `o0 o1 o2 o3`
follow the mapping: the reply is sent, and its last four bytes are `o0 o1 o2 o3`. -/
theorem service_step_read_past_end (rest out : List Byte) (mem : Mem) (calls : List Call)
    (outside : Nat → Outside) (o0 o1 o2 o3 : Byte)
    (h0 : outside calls.length 0 = some o0) (h1 : outside calls.length 1 = some o1)
    (h2 : outside calls.length 2 = some o2) (h3 : outside calls.length 3 = some o3) :
    MonitorServer.service_step
      ⟨[CH_r, 0, 2, 0, 0xFC, 0xFF, 0x01, 0x40] ++ rest, out, mem, calls, outside⟩
      = ⟨.awaitingHeader,
          ⟨rest, out ++ ([CH_r, 0, 2, 0, 0xFC, 0xFF, 0x01, 0x40]
              ++ (ulong_bytes (load_ulong mem 0x4001FFFC) ++ [o0, o1, o2, o3])),
            mem, calls ++ [.read 0x4001FFFC 2], outside⟩⟩ := by
  have hc : (⟨CH_r, 0, 2, 0, 0xFC, 0xFF, 0x01, 0x40⟩ : Header).count = 2 := by decide
  have ha : (⟨CH_r, 0, 2, 0, 0xFC, 0xFF, 0x01, 0x40⟩ : Header).address = 0x4001FFFC := by decide
  have hb : (⟨CH_r, 0, 2, 0, 0xFC, 0xFF, 0x01, 0x40⟩ : Header).bytes
      = [CH_r, 0, 2, 0, 0xFC, 0xFF, 0x01, 0x40] := rfl
  have h20 : ¬ ((2 : Nat) = 0) := by decide
  obtain ⟨_, hm⟩ := service_step_header ⟨CH_r, 0, 2, 0, 0xFC, 0xFF, 0x01, 0x40⟩ rest
    ⟨[CH_r, 0, 2, 0, 0xFC, 0xFF, 0x01, 0x40] ++ rest, out, mem, calls, outside⟩ rfl
  have hr := read_values_past_end mem (outside calls.length) o0 o1 o2 o3 h0 h1 h2 h3
  rw [hc, ha, hb, if_neg h20, if_pos rfl] at hm
  simp only [hr] at hm
  rw [hm]
  simp only [bytes_of_words, ulong_bytes_of_bytes, List.append_nil]

/-- The header `'r' 00 02 00 FC FF 01 40` in a process with no readable page after the
mapping: the second load traps and nothing is sent. -/
theorem service_step_read_past_end_trap (rest out : List Byte) (mem : Mem) (calls : List Call)
    (outside : Nat → Outside) (h0 : outside calls.length 0 = none) :
    MonitorServer.service_step
      ⟨[CH_r, 0, 2, 0, 0xFC, 0xFF, 0x01, 0x40] ++ rest, out, mem, calls, outside⟩
      = ⟨.segv, ⟨rest, out, mem, calls ++ [.read 0x4001FFFC 2], outside⟩⟩ := by
  have hc : (⟨CH_r, 0, 2, 0, 0xFC, 0xFF, 0x01, 0x40⟩ : Header).count = 2 := by decide
  have ha : (⟨CH_r, 0, 2, 0, 0xFC, 0xFF, 0x01, 0x40⟩ : Header).address = 0x4001FFFC := by decide
  have h20 : ¬ ((2 : Nat) = 0) := by decide
  obtain ⟨_, hm⟩ := service_step_header ⟨CH_r, 0, 2, 0, 0xFC, 0xFF, 0x01, 0x40⟩ rest
    ⟨[CH_r, 0, 2, 0, 0xFC, 0xFF, 0x01, 0x40] ++ rest, out, mem, calls, outside⟩ rfl
  have hr := read_values_past_end_trap mem (outside calls.length) h0
  rw [hc, ha, if_neg h20, if_pos rfl] at hm
  simp only [hr] at hm
  exact hm

/-- C9, the code at a failing input: the header `'r' 00 02 00 FC FF 01 40` asks for 2 words at
address `0x4001FFFC`. Word 1 is at offset `MAP_SIZE` from `map_base`, outside the mapping (the
defect behind C4). In a process where the readable bytes `o0 o1 o2 o3` follow the mapping, both
servers send the 16-byte reply whose bytes 12..15 are `o0 o1 o2 o3`: bytes of the process, not a
word of the mapping, and the same register memory gives another reply in another process. In a
process with no readable page after the mapping the load traps and no reply is sent. -/
theorem read_reply_past_end (rest out : List Byte) (mem : Mem) (calls : List Call)
    (o0 o1 o2 o3 : Byte) :
    (⟨CH_r, 0, 2, 0, 0xFC, 0xFF, 0x01, 0x40⟩ : Header).count = 2 ∧
    (⟨CH_r, 0, 2, 0, 0xFC, 0xFF, 0x01, 0x40⟩ : Header).address = 0x4001FFFC ∧
    access_offset 0x4001FFFC 1 = MAP_SIZE ∧
    MonitorServer.service_step
      ⟨[CH_r, 0, 2, 0, 0xFC, 0xFF, 0x01, 0x40] ++ rest, out, mem, calls,
        outside_bytes [o0, o1, o2, o3]⟩
      = ⟨.awaitingHeader,
          ⟨rest, out ++ ([CH_r, 0, 2, 0, 0xFC, 0xFF, 0x01, 0x40]
              ++ (ulong_bytes (load_ulong mem 0x4001FFFC) ++ [o0, o1, o2, o3])),
            mem, calls ++ [.read 0x4001FFFC 2], outside_bytes [o0, o1, o2, o3]⟩⟩ ∧
    PyrplServer.service_step
      ⟨[CH_r, 0, 2, 0, 0xFC, 0xFF, 0x01, 0x40] ++ rest, out, mem, calls,
        outside_bytes [o0, o1, o2, o3]⟩
      = ⟨.awaitingHeader,
          ⟨rest, out ++ ([CH_r, 0, 2, 0, 0xFC, 0xFF, 0x01, 0x40]
              ++ (ulong_bytes (load_ulong mem 0x4001FFFC) ++ [o0, o1, o2, o3])),
            mem, calls ++ [.read 0x4001FFFC 2], outside_bytes [o0, o1, o2, o3]⟩⟩ ∧
    MonitorServer.service_step
      ⟨[CH_r, 0, 2, 0, 0xFC, 0xFF, 0x01, 0x40] ++ rest, out, mem, calls, fun _ _ => none⟩
      = ⟨.segv, ⟨rest, out, mem, calls ++ [.read 0x4001FFFC 2], fun _ _ => none⟩⟩ ∧
    PyrplServer.service_step
      ⟨[CH_r, 0, 2, 0, 0xFC, 0xFF, 0x01, 0x40] ++ rest, out, mem, calls, fun _ _ => none⟩
      = ⟨.segv, ⟨rest, out, mem, calls ++ [.read 0x4001FFFC 2], fun _ _ => none⟩⟩ :=
  ⟨by decide, by decide, by decide,
    service_step_read_past_end rest out mem calls (outside_bytes [o0, o1, o2, o3]) o0 o1 o2 o3
      rfl rfl rfl rfl,
    service_step_read_past_end rest out mem calls (outside_bytes [o0, o1, o2, o3]) o0 o1 o2 o3
      rfl rfl rfl rfl,
    service_step_read_past_end_trap rest out mem calls (fun _ _ => none) rfl,
    service_step_read_past_end_trap rest out mem calls (fun _ _ => none) rfl⟩

/-! ## Write acknowledgement (C10) -/

/-- Effect and acknowledgement of a write whose accesses stay inside the mapping: for every
header with command `'w'`, nonzero count `c` and `(address & MAP_MASK) + 4 * c ≤ MAP_SIZE`,
followed by a payload of `4 * c` bytes, both servers store payload word `i` at physical address
`address + 4 * i` for every `i < c`, leave every byte outside
`[address, address + 4 * c)` as it was, reply with the 8 header bytes and await the next
header. -/
theorem write_ack_in_window (h : Header) (payload rest : List Byte) (s : Session)
    (hin : s.input = h.bytes ++ (payload ++ rest)) (hcmd : h.b0 = CH_w) (hcount : h.count ≠ 0)
    (hpay : payload.length = 4 * h.count)
    (hwin : (h.address &&& MAP_MASK) + 4 * h.count ≤ MAP_SIZE) :
    ∃ mem' : Mem,
      MonitorServer.service_step s =
        ⟨.awaitingHeader,
          { s with input := rest, output := s.output ++ h.bytes, mem := mem',
                   calls := s.calls ++ [.write h.address (words_of_bytes payload)] }⟩ ∧
      PyrplServer.service_step s = MonitorServer.service_step s ∧
      (∀ i w, (words_of_bytes payload)[i]? = some w →
        load_ulong mem' (h.address + 4 * i) = w) ∧
      (∀ p, p < h.address ∨ h.address + 4 * h.count ≤ p → mem' p = s.mem p) := by
  have haddr : h.address < 2 ^ 32 := by
    simp only [Header.address, header_address, ulong_of_bytes]; omega
  have h0 : access_offset h.address 0 = h.address &&& MAP_MASK := by simp [access_offset]
  have hlen : (words_of_bytes payload).length = h.count := by
    rw [words_of_bytes_length, hpay]; omega
  obtain ⟨mem', hrun, hload, hframe⟩ :=
    write_loop_in_window h.address (words_of_bytes payload) 0 s.mem (by rw [h0, hlen]; omega)
  obtain ⟨he, hm⟩ := service_step_header h (payload ++ rest) s hin
  have hr : ¬ (h.b0 = CH_r) := by rw [hcmd]; decide
  have hsz : h.count * SIZEOF_ULONG = payload.length := by
    rw [hpay]; simp only [SIZEOF_ULONG]; omega
  have htake : List.take (h.count * SIZEOF_ULONG) (payload ++ rest) = payload := by
    rw [hsz]; exact List.take_left' rfl
  have hdrop : List.drop (h.count * SIZEOF_ULONG) (payload ++ rest) = rest := by
    rw [hsz]; exact List.drop_left' rfl
  refine ⟨mem', ?_, he, ?_, ?_⟩
  · rw [hm, if_neg hcount, if_neg hr, if_pos hcmd, htake, hdrop]
    have hsz' : ¬ (payload.length ≠ h.count * SIZEOF_ULONG) := by rw [hsz]; simp
    rw [if_neg hsz']
    simp only [write_values, hrun]
  · intro i w hw
    have := hload i w hw
    rw [access_phys_eq _ _ haddr, Nat.zero_add] at this
    rw [this]
    have hlt := words_of_bytes_lt payload w (List.getElem?_mem hw)
    omega
  · intro p hp
    apply hframe
    rw [access_phys_eq _ _ haddr, hlen]
    omega

/-- C10, the code at a failing input: the header `'w' 00 02 00 FC FF 01 40` followed by the
8 payload bytes `01 00 00 00 02 00 00 00` writes 2 words at address `0x4001FFFC`. The second
access of `write_values` is outside the mapping (the defect behind C4): the first word is
stored, the iteration ends in a fault and the 8-byte acknowledgement is never sent. -/
theorem write_ack_past_end (rest out : List Byte) (mem : Mem) (calls : List Call)
    (outside : Nat → Outside) :
    (⟨CH_w, 0, 2, 0, 0xFC, 0xFF, 0x01, 0x40⟩ : Header).count = 2 ∧
    (⟨CH_w, 0, 2, 0, 0xFC, 0xFF, 0x01, 0x40⟩ : Header).address = 0x4001FFFC ∧
    MonitorServer.service_step
      ⟨[CH_w, 0, 2, 0, 0xFC, 0xFF, 0x01, 0x40] ++ ([1, 0, 0, 0, 2, 0, 0, 0] ++ rest),
        out, mem, calls, outside⟩
      = ⟨.segv, { input := rest, output := out, mem := store_ulong mem 0x4001FFFC 1,
                  calls := calls ++ [.write 0x4001FFFC [1, 2]], outside := outside }⟩ ∧
    PyrplServer.service_step
      ⟨[CH_w, 0, 2, 0, 0xFC, 0xFF, 0x01, 0x40] ++ ([1, 0, 0, 0, 2, 0, 0, 0] ++ rest),
        out, mem, calls, outside⟩
      = ⟨.segv, { input := rest, output := out, mem := store_ulong mem 0x4001FFFC 1,
                  calls := calls ++ [.write 0x4001FFFC [1, 2]], outside := outside }⟩ := by
  have hc : (⟨CH_w, 0, 2, 0, 0xFC, 0xFF, 0x01, 0x40⟩ : Header).count = 2 := by decide
  have ha : (⟨CH_w, 0, 2, 0, 0xFC, 0xFF, 0x01, 0x40⟩ : Header).address = 0x4001FFFC := by decide
  have hw : words_of_bytes [1, 0, 0, 0, 2, 0, 0, 0] = [1, 2] := by decide
  have hr : ¬ (CH_w = CH_r) := by decide
  obtain ⟨he, hm⟩ := service_step_header ⟨CH_w, 0, 2, 0, 0xFC, 0xFF, 0x01, 0x40⟩
    ([1, 0, 0, 0, 2, 0, 0, 0] ++ rest)
    ⟨[CH_w, 0, 2, 0, 0xFC, 0xFF, 0x01, 0x40] ++ ([1, 0, 0, 0, 2, 0, 0, 0] ++ rest),
      out, mem, calls, outside⟩ rfl
  refine ⟨hc, ha, ?_⟩
  rw [he, hm, hc, ha]
  simp [SIZEOF_ULONG, hr, hw, write_values_past_end]

/-! ## Transport failures (C11) -/

/-- A stream either ends before a full header, or starts with one. -/
theorem input_short_or_header (input : List Byte) :
    input.length < 8 ∨ ∃ (h : Header) (rest : List Byte), input = h.bytes ++ rest := by
  match input with
  | b0 :: b1 :: b2 :: b3 :: b4 :: b5 :: b6 :: b7 :: rest =>
    exact Or.inr ⟨⟨b0, b1, b2, b3, b4, b5, b6, b7⟩, rest, rfl⟩
  | [] => left; simp
  | [_] => left; simp
  | [_, _] => left; simp
  | [_, _, _] => left; simp
  | [_, _, _, _] => left; simp
  | [_, _, _, _, _] => left; simp
  | [_, _, _, _, _, _] => left; simp
  | [_, _, _, _, _, _, _] => left; simp

/-- When fewer than 8 bytes are left in the stream, `recv` comes back short and the iteration
ends in the header-length error, with nothing sent and no register touched. -/
theorem service_step_short_header (s : Session) (hshort : s.input.length < 8) :
    MonitorServer.service_step s
      = ⟨.error .headerLength, { s with input := s.input.drop 8 }⟩ := by
  unfold MonitorServer.service_step
  split
  · rename_i b0 b1 b2 b3 b4 b5 b6 b7 rest heq
    have hlen : (List.take 8 s.input).length = 8 := by
      have h1 := congrArg Prod.fst heq
      simp only [recv] at h1
      rw [h1]; rfl
    rw [List.length_take] at hlen
    omega
  · rename_i fst rest hne heq
    have h2 := congrArg Prod.snd heq
    simp only [recv] at h2
    rw [h2]

/-- When a `'w'` header with decoded count `c` is followed by fewer than `4 * c` bytes, the
second `recv` comes back short and the iteration ends in the payload-length error before
`write_values` is called, with nothing sent. -/
theorem service_step_short_payload (h : Header) (rest : List Byte) (s : Session)
    (hin : s.input = h.bytes ++ rest) (hcmd : h.b0 = CH_w)
    (hpay : rest.length < 4 * h.count) :
    MonitorServer.service_step s
      = ⟨.error .payloadLength, { s with input := rest.drop (h.count * SIZEOF_ULONG) }⟩ := by
  obtain ⟨_, hm⟩ := service_step_header h rest s hin
  have hcount : ¬ (h.count = 0) := by omega
  have hr : ¬ (h.b0 = CH_r) := by rw [hcmd]; decide
  have hlen : (List.take (h.count * SIZEOF_ULONG) rest).length ≠ h.count * SIZEOF_ULONG := by
    rw [List.length_take]
    simp only [SIZEOF_ULONG]
    omega
  rw [hm, if_neg hcount, if_neg hr, if_pos hcmd, if_pos hlen]

/-- C11 (transport failures are fatal and atomic): if fewer than 8 header bytes arrive, or if
after a `'w'` header with decoded word count `c` fewer than `4 * c` payload bytes arrive, the
iteration of the service loop of either server ends the session with an error (the
header-length error in the first case, the payload-length error in the second), sends no reply
byte, does not call `write_values` or `read_values`, and leaves memory exactly as it was: a short
payload is never partially written. -/
theorem transport_failure_is_fatal (s : Session)
    (hfail : s.input.length < 8 ∨
      ∃ (h : Header) (rest : List Byte),
        s.input = h.bytes ++ rest ∧ h.b0 = CH_w ∧ rest.length < 4 * h.count) :
    (MonitorServer.service_step s).status
      = .error (if s.input.length < 8 then .headerLength else .payloadLength) ∧
    (MonitorServer.service_step s).quiet s ∧
    (PyrplServer.service_step s).status
      = .error (if s.input.length < 8 then .headerLength else .payloadLength) ∧
    (PyrplServer.service_step s).quiet s := by
  have he : PyrplServer.service_step s = MonitorServer.service_step s := rfl
  rw [he]
  rcases hfail with hshort | ⟨h, rest, hin, hcmd, hpay⟩
  · rw [service_step_short_header s hshort, if_pos hshort]
    simp [Result.quiet]
  · have hlong : ¬ (s.input.length < 8) := by
      rw [hin]; simp [Header.bytes]
    rw [service_step_short_payload h rest s hin hcmd hpay, if_neg hlong]
    simp [Result.quiet]

/-- Witness of C11: a stream that ends after 3 bytes, and a `'w'` header with count 2 followed
by 7 of the 8 payload bytes. -/
theorem transport_failure_is_fatal_witness :
    (MonitorServer.service_step ⟨[CH_w, 0, 2], [], fun _ => 0, [], fun _ _ => none⟩).status
      = .error .headerLength ∧
    (MonitorServer.service_step
      ⟨[CH_w, 0, 2, 0, 0, 0, 0, 0x40, 1, 2, 3, 4, 5, 6, 7], [], fun _ => 0, [], fun _ _ => none⟩).status
      = .error .payloadLength ∧
    (MonitorServer.service_step
      ⟨[CH_w, 0, 2, 0, 0, 0, 0, 0x40, 1, 2, 3, 4, 5, 6, 7], [], fun _ => 0, [], fun _ _ => none⟩).session.mem
      = fun _ => 0 :=
  have h1 := transport_failure_is_fatal ⟨[CH_w, 0, 2], [], fun _ => 0, [], fun _ _ => none⟩
    (Or.inl (by decide))
  have h2 := transport_failure_is_fatal
    ⟨[CH_w, 0, 2, 0, 0, 0, 0, 0x40, 1, 2, 3, 4, 5, 6, 7], [], fun _ => 0, [], fun _ _ => none⟩
    (Or.inr ⟨⟨CH_w, 0, 2, 0, 0, 0, 0, 0x40⟩, [1, 2, 3, 4, 5, 6, 7], rfl, rfl, by decide⟩)
  ⟨h1.1, h2.1, h2.2.1.2.1⟩

/-! ## The two service loops (C12) -/

/-- Unfolding of one round of the service loop of monitor_server.c. -/
theorem monitor_service_loop_succ (fuel : Nat) (s : Session) :
    MonitorServer.service_loop (fuel + 1) s =
      if (MonitorServer.service_step s).status = .awaitingHeader then
        MonitorServer.service_loop fuel (MonitorServer.service_step s).session
      else MonitorServer.service_step s := by
  rw [MonitorServer.service_loop]
  split
  · rename_i s1 heq
    rw [heq]
    simp
  · rename_i hne
    have hst : ¬ ((MonitorServer.service_step s).status = .awaitingHeader) := by
      intro h
      apply hne (MonitorServer.service_step s).session
      rw [← h]
    rw [if_neg hst]

/-- Unfolding of one round of the service loop of pyrpl_server.c. -/
theorem pyrpl_service_loop_succ (fuel : Nat) (s : Session) :
    PyrplServer.service_loop (fuel + 1) s =
      if (PyrplServer.service_step s).status = .awaitingHeader then
        PyrplServer.service_loop fuel (PyrplServer.service_step s).session
      else PyrplServer.service_step s := by
  rw [PyrplServer.service_loop]
  split
  · rename_i s1 heq
    rw [heq]
    simp
  · rename_i hne
    have hst : ¬ ((PyrplServer.service_step s).status = .awaitingHeader) := by
      intro h
      apply hne (PyrplServer.service_step s).session
      rw [← h]
    rw [if_neg hst]

/-- The two service loops agree after every number of iterations, from every session state. -/
theorem service_loop_agree :
    ∀ (fuel : Nat) (s : Session),
      PyrplServer.service_loop fuel s = MonitorServer.service_loop fuel s
  | 0, _ => rfl
  | fuel + 1, s => by
    have he : PyrplServer.service_step s = MonitorServer.service_step s := rfl
    rw [pyrpl_service_loop_succ, monitor_service_loop_succ, he,
      service_loop_agree fuel]

/-- An iteration that goes back to await a header has consumed at least the 8 header bytes. -/
theorem service_step_consumes (s : Session)
    (hst : (MonitorServer.service_step s).status = .awaitingHeader) :
    (MonitorServer.service_step s).session.input.length + 8 ≤ s.input.length := by
  rcases input_short_or_header s.input with hshort | ⟨h, rest, hin⟩
  · rw [service_step_short_header s hshort] at hst
    exact Status.noConfusion hst
  · obtain ⟨_, hm⟩ := service_step_header h rest s hin
    have hlen : s.input.length = rest.length + 8 := by
      rw [hin]; simp [Header.bytes]
    rw [hm] at hst ⊢
    by_cases h0 : h.count = 0
    · rw [if_pos h0]
      simp only []
      omega
    · rw [if_neg h0] at hst ⊢
      by_cases hr : h.b0 = CH_r
      · rw [if_pos hr] at hst ⊢
        cases hrv : read_values s.mem (s.outside s.calls.length) h.address h.count with
        | none =>
          rw [hrv] at hst
          exact Status.noConfusion hst
        | some ws =>
          simp only []
          omega
      · rw [if_neg hr] at hst ⊢
        by_cases hw : h.b0 = CH_w
        · rw [if_pos hw] at hst ⊢
          by_cases hp : (List.take (h.count * SIZEOF_ULONG) rest).length
              ≠ h.count * SIZEOF_ULONG
          · rw [if_pos hp] at hst
            exact Status.noConfusion hst
          · rw [if_neg hp] at hst ⊢
            cases hwv : write_values s.mem h.address
                (words_of_bytes (List.take (h.count * SIZEOF_ULONG) rest)) with
            | segv m =>
              rw [hwv] at hst
              exact Status.noConfusion hst
            | ok m =>
              simp only [List.length_drop]
              omega
        · rw [if_neg hw] at hst
          by_cases hc : h.b0 = CH_c
          · rw [if_pos hc] at hst
            exact Status.noConfusion hst
          · rw [if_neg hc] at hst
            exact Status.noConfusion hst

/-- The service loop ends: once the iteration bound exceeds an eighth of the stream, the loop
has left the awaiting state (closed, error or fault). -/
theorem service_loop_ends :
    ∀ (fuel : Nat) (s : Session), s.input.length < 8 * fuel →
      (MonitorServer.service_loop fuel s).status ≠ .awaitingHeader
  | 0, s, h => by omega
  | fuel + 1, s, h => by
    rw [monitor_service_loop_succ]
    by_cases hst : (MonitorServer.service_step s).status = .awaitingHeader
    · rw [if_pos hst]
      have := service_step_consumes s hst
      exact service_loop_ends fuel _ (by omega)
    · rw [if_neg hst]
      exact hst

/-- An iteration does not look at what was sent before: with `p` sent earlier, it runs as
without, and its output carries `p` in front. -/
theorem service_step_output_prefix (p : List Byte) (s : Session) :
    MonitorServer.service_step { s with output := p ++ s.output } =
      ⟨(MonitorServer.service_step s).status,
        { (MonitorServer.service_step s).session with
            output := p ++ (MonitorServer.service_step s).session.output }⟩ := by
  rcases input_short_or_header s.input with hshort | ⟨h, rest, hin⟩
  · rw [service_step_short_header s hshort,
      service_step_short_header { s with output := p ++ s.output } hshort]
  · obtain ⟨_, hm⟩ := service_step_header h rest s hin
    obtain ⟨_, hm'⟩ := service_step_header h rest { s with output := p ++ s.output } hin
    rw [hm, hm']
    by_cases h0 : h.count = 0
    · simp only [if_pos h0]
    · simp only [if_neg h0]
      by_cases hr : h.b0 = CH_r
      · simp only [if_pos hr]
        cases hrv : read_values s.mem (s.outside s.calls.length) h.address h.count with
        | none => rfl
        | some ws => simp only [List.append_assoc]
      · simp only [if_neg hr]
        by_cases hw : h.b0 = CH_w
        · simp only [if_pos hw]
          by_cases hp : (List.take (h.count * SIZEOF_ULONG) rest).length
              ≠ h.count * SIZEOF_ULONG
          · simp only [if_pos hp]
          · simp only [if_neg hp]
            cases hwv : write_values s.mem h.address
                (words_of_bytes (List.take (h.count * SIZEOF_ULONG) rest)) with
            | segv m => rfl
            | ok m => simp only [List.append_assoc]
        · simp only [if_neg hw]
          by_cases hc : h.b0 = CH_c
          · simp only [if_pos hc]
          · simp only [if_neg hc]

/-- The service loop does not look at what was sent before either. -/
theorem service_loop_output_prefix (p : List Byte) :
    ∀ (fuel : Nat) (s : Session),
      MonitorServer.service_loop fuel { s with output := p ++ s.output } =
        ⟨(MonitorServer.service_loop fuel s).status,
          { (MonitorServer.service_loop fuel s).session with
              output := p ++ (MonitorServer.service_loop fuel s).session.output }⟩
  | 0, _ => rfl
  | fuel + 1, s => by
    rw [monitor_service_loop_succ, monitor_service_loop_succ,
      service_step_output_prefix]
    by_cases hst : (MonitorServer.service_step s).status = .awaitingHeader
    · simp only [if_pos hst]
      exact service_loop_output_prefix p fuel (MonitorServer.service_step s).session
    · simp only [if_neg hst]

/-- When the client sends the configured token, the handshake consumes it, answers with the
thirty-two `'1'` characters and hands over to the service loop. -/
theorem handshake_match (token stream out : List Byte) (mem : Mem) (calls : List Call)
    (outside : Nat → Outside) (htok : PyrplServer.token_ok token) :
    PyrplServer.handshake token ⟨token ++ stream, out, mem, calls, outside⟩
      = ⟨.awaitingHeader, ⟨stream, out ++ PyrplServer.ACK_TOKEN, mem, calls, outside⟩⟩ := by
  obtain ⟨htl, hz⟩ := htok
  obtain ⟨d, hd, hiff⟩ := strcmp_terminated token token hz rfl
  have hd0 : d = 0 := hiff.2 rfl
  subst hd0
  have htake : List.take 32 (token ++ stream) = token := by
    rw [← htl]; exact List.take_left' rfl
  have hdrop : List.drop 32 (token ++ stream) = stream := by
    rw [← htl]; exact List.drop_left' rfl
  simp only [PyrplServer.handshake, recv, htake, hdrop, htl, hd, ne_eq, not_true_eq_false,
    if_false]

/-- The two servers as the same function of the client stream, the register memory and what
their processes hold after their mappings: when these are the same, the child of pyrpl_server.c
that received the token and then the stream sends the thirty-two `'1'` characters followed by
exactly the bytes that monitor_server.c sends on that stream, and ends with the same memory and
the same outcome, after every number `fuel` of iterations. Once `fuel` exceeds an eighth of the
stream length the outcome is no longer `awaitingHeader`: the loop has ended. -/
theorem same_handler_in_same_process (token stream : List Byte) (mem : Mem)
    (outside : Nat → Outside) (fuel : Nat) (htok : PyrplServer.token_ok token) :
    (∀ s : Session, PyrplServer.service_loop fuel s = MonitorServer.service_loop fuel s) ∧
    (PyrplServer.serve token fuel ⟨token ++ stream, [], mem, [], outside⟩).status
      = (MonitorServer.service_loop fuel ⟨stream, [], mem, [], outside⟩).status ∧
    (PyrplServer.serve token fuel ⟨token ++ stream, [], mem, [], outside⟩).session.output
      = PyrplServer.ACK_TOKEN
          ++ (MonitorServer.service_loop fuel ⟨stream, [], mem, [], outside⟩).session.output ∧
    (PyrplServer.serve token fuel ⟨token ++ stream, [], mem, [], outside⟩).session.mem
      = (MonitorServer.service_loop fuel ⟨stream, [], mem, [], outside⟩).session.mem ∧
    (PyrplServer.serve token fuel ⟨token ++ stream, [], mem, [], outside⟩).session.input
      = (MonitorServer.service_loop fuel ⟨stream, [], mem, [], outside⟩).session.input ∧
    (PyrplServer.serve token fuel ⟨token ++ stream, [], mem, [], outside⟩).session.calls
      = (MonitorServer.service_loop fuel ⟨stream, [], mem, [], outside⟩).session.calls ∧
    (MonitorServer.service_loop (stream.length / 8 + 1) ⟨stream, [], mem, [], outside⟩).status
      ≠ .awaitingHeader := by
  have hserve : PyrplServer.serve token fuel ⟨token ++ stream, [], mem, [], outside⟩
      = MonitorServer.service_loop fuel
          ⟨stream, PyrplServer.ACK_TOKEN ++ [], mem, [], outside⟩ := by
    rw [PyrplServer.serve, handshake_match token stream [] mem [] outside htok]
    simp only [List.nil_append, List.append_nil]
    exact service_loop_agree fuel _
  have hpre := service_loop_output_prefix PyrplServer.ACK_TOKEN fuel
    ⟨stream, [], mem, [], outside⟩
  simp only [] at hpre
  rw [hserve, hpre]
  refine ⟨service_loop_agree fuel, rfl, rfl, rfl, rfl, rfl, ?_⟩
  exact service_loop_ends _ _ (by simp only []; omega)

/-- C12, the code at a failing input: the client stream `'r' 00 02 00 FC FF 01 40` (one read of
2 words at `0x4001FFFC`) over the same register memory. Word 1 is loaded from outside the
mapping (the defect behind C4), so each server sends what its own process holds there: with
the bytes `F4 5C 01 00` after the mapping of monitor_server.c and `44 5D 01 00` after the mapping
of the child of pyrpl_server.c, the two service loops send different replies. The reply bytes
are not a function of the register memory and the stream. -/
theorem servers_differ_past_mapping (mem : Mem) :
    (MonitorServer.service_loop 1
      ⟨[CH_r, 0, 2, 0, 0xFC, 0xFF, 0x01, 0x40], [], mem, [],
        outside_bytes [0xF4, 0x5C, 0x01, 0x00]⟩).session.output
      = [CH_r, 0, 2, 0, 0xFC, 0xFF, 0x01, 0x40]
          ++ (ulong_bytes (load_ulong mem 0x4001FFFC) ++ [0xF4, 0x5C, 0x01, 0x00]) ∧
    (PyrplServer.service_loop 1
      ⟨[CH_r, 0, 2, 0, 0xFC, 0xFF, 0x01, 0x40], [], mem, [],
        outside_bytes [0x44, 0x5D, 0x01, 0x00]⟩).session.output
      = [CH_r, 0, 2, 0, 0xFC, 0xFF, 0x01, 0x40]
          ++ (ulong_bytes (load_ulong mem 0x4001FFFC) ++ [0x44, 0x5D, 0x01, 0x00]) ∧
    (MonitorServer.service_loop 1
      ⟨[CH_r, 0, 2, 0, 0xFC, 0xFF, 0x01, 0x40], [], mem, [],
        outside_bytes [0xF4, 0x5C, 0x01, 0x00]⟩).session.output
      ≠ (PyrplServer.service_loop 1
          ⟨[CH_r, 0, 2, 0, 0xFC, 0xFF, 0x01, 0x40], [], mem, [],
            outside_bytes [0x44, 0x5D, 0x01, 0x00]⟩).session.output := by
  have h1 := service_step_read_past_end [] [] mem []
    (outside_bytes [0xF4, 0x5C, 0x01, 0x00]) 0xF4 0x5C 0x01 0x00 rfl rfl rfl rfl
  have h2 := service_step_read_past_end [] [] mem []
    (outside_bytes [0x44, 0x5D, 0x01, 0x00]) 0x44 0x5D 0x01 0x00 rfl rfl rfl rfl
  simp only [List.append_nil, List.nil_append] at h1 h2
  have hm : (MonitorServer.service_loop 1
      ⟨[CH_r, 0, 2, 0, 0xFC, 0xFF, 0x01, 0x40], [], mem, [],
        outside_bytes [0xF4, 0x5C, 0x01, 0x00]⟩).session.output
      = [CH_r, 0, 2, 0, 0xFC, 0xFF, 0x01, 0x40]
          ++ (ulong_bytes (load_ulong mem 0x4001FFFC) ++ [0xF4, 0x5C, 0x01, 0x00]) := by
    rw [monitor_service_loop_succ, h1]
    rfl
  have hp : (PyrplServer.service_loop 1
      ⟨[CH_r, 0, 2, 0, 0xFC, 0xFF, 0x01, 0x40], [], mem, [],
        outside_bytes [0x44, 0x5D, 0x01, 0x00]⟩).session.output
      = [CH_r, 0, 2, 0, 0xFC, 0xFF, 0x01, 0x40]
          ++ (ulong_bytes (load_ulong mem 0x4001FFFC) ++ [0x44, 0x5D, 0x01, 0x00]) := by
    rw [service_loop_agree, monitor_service_loop_succ, h2]
    rfl
  refine ⟨hm, hp, ?_⟩
  rw [hm, hp]
  intro h
  have h4 := List.append_cancel_left (List.append_cancel_left h)
  exact absurd h4 (by decide)

end Pyrpl
